import Mathlib

/-!
Verification of the dgDynamic backend-abstraction layer.

This file is a shallow embedding of the parts of the repository that the
checked properties talk about:

* `dgDynamic/output.py` — the `SimulationOutput` record, its constructor
  (`SimulationOutput.__init__`), `is_empty`, `_filter_out_ignores`,
  `filtered_output` and `__getitem__`;
* `dgDynamic/plugins/stochastic/stochkit2/stochkit2.py` — the `read_output`
  result-table parser and the failure path of `StochKit2Stochastic.simulate`;
* `dgDynamic/plugins/stochastic/spim.py` — the csv parse loop of
  `SpimStochastic.solve`;
* `dgDynamic/converters/stochastic/spim_converter.py` — `generate_rates` and
  `generate_automata_code`;
* `dgODE/plugins/ode_plugin.py` — `sanity_check` and `_count_parameters`;
* `dgDynamic/simulators/ode_simulator.py` — the symbol/parameter tables built
  by `ODESystem.__init__`;
* `dgDynamic/plugins/stochastic/stochpy/stochpy.py` — the rate-defaulting loop
  of `StochPyStochastic.generate_psc_file`.

Numeric values are modelled as `ℚ` (the Python code works with machine
floats/ints; none of the proved properties depends on rounding, only on
structure, so the exact numeric carrier is irrelevant).  Python dicts are
modelled as insertion-ordered association lists, which is how CPython ≥ 3.7
dicts behave.  Python exceptions are modelled with `Except String`.
-/

/-- The unified time-series record built by `SimulationOutput.__init__`
(`dgDynamic/output.py`).  Field order follows the attribute assignments of
the Python constructor. -/
structure SimulationOutput where
  solver_used : String
  solver_method_used : Option String
  requested_simulation_range : ℚ × ℚ
  dependent : List (List ℚ)
  independent : List ℚ
  labels : Option (List String)
  errors : List String
  simulation_duration : ℚ
  ignored : List ℕ
  symbols : Option (List String)
deriving DecidableEq

/-- `SimulationOutput.__init__` (`output.py` lines 13–26).  It computes
`simulation_duration = abs(independent[-1] - independent[0])`; on an empty
`independent` tuple the subscript `independent[-1]` raises `IndexError`,
modelled here as the error branch.  `self._ignored = tuple(item[1] for item
in ignore)` is the `Prod.snd` projection of the `ignore` pairs. -/
def SimulationOutput.init? (solved_by : String) (user_sim_range : ℚ × ℚ)
    (dependent : List (List ℚ)) (independent : List ℚ)
    (ignore : List (String × ℕ)) (solver_method : Option String)
    (symbols : Option (List String)) (errors : List String)
    (data_labels : Option (List String)) : Except String SimulationOutput :=
  match independent with
  | [] => .error "IndexError: tuple index out of range"
  | a :: l =>
      .ok { solver_used := solved_by
            solver_method_used := solver_method
            requested_simulation_range := user_sim_range
            dependent := dependent
            independent := a :: l
            labels := data_labels
            errors := errors
            simulation_duration := |(a :: l).getLast (List.cons_ne_nil a l) - a|
            ignored := ignore.map Prod.snd
            symbols := symbols }

/-- `SimulationOutput.is_empty` (`output.py` lines 40–42):
`len(self.independent) == 0 and len(self.dependent) == 0`. -/
def SimulationOutput.is_empty (o : SimulationOutput) : Bool :=
  o.independent.isEmpty && o.dependent.isEmpty

/-- The inner loop of `SimulationOutput._filter_out_ignores` (`output.py`
lines 86–92): keep exactly the row items whose enumeration index is not in
the ignored index tuple.  The second argument is the running value of
`enumerate`. -/
def filter_row (ignored : List ℕ) : List ℚ → ℕ → List ℚ
  | [], _ => []
  | x :: xs, i =>
      if i ∈ ignored then filter_row ignored xs (i + 1)
      else x :: filter_row ignored xs (i + 1)

/-- `SimulationOutput._filter_out_ignores` applied to all dependent rows. -/
def SimulationOutput.filter_out_ignores (o : SimulationOutput) : List (List ℚ) :=
  o.dependent.map (fun r => filter_row o.ignored r 0)

/-- `SimulationOutput.filtered_output` (`output.py` lines 94–104): build a new
output record from the filtered rows, with `ignore=()` and every other field
copied.  The new record goes through `__init__` again, hence the `Except`. -/
def SimulationOutput.filtered_output (o : SimulationOutput) : Except String SimulationOutput :=
  SimulationOutput.init? o.solver_used o.requested_simulation_range
    o.filter_out_ignores o.independent [] o.solver_method_used o.symbols
    o.errors o.labels

/-- The argument of `SimulationOutput.__getitem__`: either a single integer
or a sequence of integers (Python: any object with `__getitem__` and
`__len__`).  Negative Python indices are not modelled; the checked claims
quantify over valid (in-range, non-negative) step indices only. -/
inductive IndexArg where
  | single : ℕ → IndexArg
  | seq : List ℕ → IndexArg

/-- Result values of `__getitem__`: a (time, row) pair for an integer index,
a (time, value) pair for a 2-tuple index. -/
inductive ItemValue where
  | pair : ℚ → List ℚ → ItemValue
  | cell : ℚ → ℚ → ItemValue
deriving DecidableEq

/-- `SimulationOutput.__getitem__` (`output.py` lines 177–187).  Out-of-range
subscripts raise `IndexError`; an index sequence of length other than two
raises `SyntaxError` with the source's message. -/
def SimulationOutput.getitem (o : SimulationOutput) : IndexArg → Except String ItemValue
  | .single i =>
      match o.independent[i]?, o.dependent[i]? with
      | some t, some row => .ok (.pair t row)
      | _, _ => .error "IndexError: list index out of range"
  | .seq idxs =>
      match idxs with
      | [i, j] =>
          match o.independent[i]?, o.dependent[i]? with
          | some t, some row =>
              match row[j]? with
              | some v => .ok (.cell t v)
              | none => .error "IndexError: list index out of range"
          | _, _ => .error "IndexError: list index out of range"
      | other =>
          if other.length > 2 then .error "SyntaxError: Too many indices given"
          else .error "SyntaxError: Too few indices given"

/-- `read_output` inside `StochKit2Stochastic.simulate`
(`stochkit2.py` lines 62–72).  The textual file is modelled after
whitespace-splitting and float-parsing: `header` is the split first line and
`rows` are the split remaining lines.  For each row the code appends
`splitted[:1][0]` to `independent` (an `IndexError` on an empty row) and
`splitted[1:]` to `dependent`. -/
def read_output (header : List String) (rows : List (List ℚ)) :
    Except String (List String × List ℚ × List (List ℚ)) :=
  match rows with
  | [] => .ok (header, [], [])
  | row :: rest =>
      match row with
      | [] => .error "IndexError: array index out of range"
      | t :: vals =>
          match read_output header rest with
          | .ok (h, ind, dep) => .ok (h, t :: ind, vals :: dep)
          | .error e => .error e

/-- The result-file parse loop of `SpimStochastic.solve` (`spim.py` lines
64–74), after the header row has been skipped by `next(reader)`: for each csv
line, `float(line[0])` is appended to `independent` and the parsed `line[1:]`
to `dependent`. -/
def spim_parse_csv (rows : List (List ℚ)) : Except String (List ℚ × List (List ℚ)) :=
  match rows with
  | [] => .ok ([], [])
  | row :: rest =>
      match row with
      | [] => .error "IndexError: list index out of range"
      | t :: vals =>
          match spim_parse_csv rest with
          | .ok (ind, dep) => .ok (t :: ind, vals :: dep)
          | .error e => .error e

/-- The failure path of `StochKit2Stochastic.simulate` (`stochkit2.py` lines
99–109): on `TimeoutExpired` or `CalledProcessError` the code evaluates
`SimulationOutput(name, (0, simulation_range[0]), self._simulator.symbols,
solver_method=self.method, errors=(exception,))`.  The third positional
argument (the simulator's symbol table, whose value is irrelevant here) binds
the constructor's `dependent` parameter, and `independent` keeps its default
`()`. -/
def stochkit2_failure_output (end_time : ℚ) (symbols_arg : List (List ℚ))
    (method_name err : String) : Except String SimulationOutput :=
  SimulationOutput.init? "stochkit2" (0, end_time) symbols_arg [] []
    (some method_name) none [err] none

/-- A communication channel of the process-calculus generator
(`spim_converter.py`).  `rate_id` is `channel.rate_id`, `edge_id` is
`channel.channel_edge.id`, `solutions` are the species ids the channel
produces, and the two flags are `channel.is_decay` / `channel.is_input`. -/
structure Channel where
  rate_id : ℕ
  is_decay : Bool
  is_input : Bool
  edge_id : ℕ
  solutions : List ℕ
deriving DecidableEq

/-- Numeric rendering used by the generators.  The Python code prints floats
at a fixed decimal precision (`"{:.{}f}"`); the exact digit string is
irrelevant to every checked property, so rendering is abstracted to the
rational's numerator/denominator pair. -/
def rat_str (q : ℚ) : String :=
  toString q.num ++ "/" ++ toString q.den

/-- One declaration line of `generate_rates` (`spim_converter.py` lines
49–52): a decay channel becomes a `val` definition, any other channel a
`new chan` declaration. -/
def render_rate_decl (edge_rate : ℕ → ℚ) (c : Channel) : String :=
  if c.is_decay then
    "val r" ++ toString c.rate_id ++ " = " ++ rat_str (edge_rate c.edge_id) ++ "\n"
  else
    "new chan" ++ toString c.rate_id ++ "@" ++ rat_str (edge_rate c.edge_id) ++ " : chan()\n"

/-- The channel iteration order of `generate_rates`: all channels of the
channel dict, in dict (insertion) order, each species' channel tuple in
order. -/
def all_channels (channel_dict : List (ℕ × List Channel)) : List Channel :=
  (channel_dict.map Prod.snd).flatten

/-- The accumulation loop of `generate_rates` (`spim_converter.py` lines
43–53): a channel whose `rate_id` is already in `already_seen` is skipped,
otherwise its declaration line is written and the id recorded.  The result
keeps the declared id next to the rendered line. -/
def rates_fold (edge_rate : ℕ → ℚ) : List Channel → List ℕ → List (ℕ × String)
  | [], _ => []
  | c :: cs, seen =>
      if c.rate_id ∈ seen then rates_fold edge_rate cs seen
      else (c.rate_id, render_rate_decl edge_rate c) :: rates_fold edge_rate cs (c.rate_id :: seen)

/-- `generate_rates` (`spim_converter.py` lines 41–54).  `edge_rate` stands
for the `edge_rate_dict` lookup.  Modelled from the spec: `get_edge_rate_dict`
lives in `dgDynamic/base_converters/convert_base.py`, which is not under
`src/`; the spec's RateTable maps every edge id to its numeric rate, so the
lookup is a total function on edge ids. -/
def generate_rates (edge_rate : ℕ → ℚ) (channel_dict : List (ℕ × List Channel)) : String :=
  String.join ((rates_fold edge_rate (all_channels channel_dict) []).map Prod.snd)

/-- Dict lookup on the symbol table (`symbols_dict[key]`).  The generator is
only ever called with a symbol table containing every species id (one symbol
per network vertex), so the `KeyError` case is collapsed to a default. -/
def dict_get (d : List (ℕ × String)) (k : ℕ) : String :=
  (d.lookup k).getD ""

/-- `channel_solutions` inside `generate_automata_code` (`spim_converter.py`
lines 89–100): more than one produced species becomes a parenthesised
parallel composition, exactly one becomes that species' call, none becomes
the inert process `()`. -/
def solutions_str (symbols_dict : List (ℕ × String)) (c : Channel) : String :=
  match c.solutions with
  | [] => "()"
  | [s] => dict_get symbols_dict s ++ "()"
  | ss => "( " ++ String.intercalate " | " (ss.map (fun s => dict_get symbols_dict s ++ "()")) ++ " )"

/-- `generate_channel` inside `generate_automata_code` (`spim_converter.py`
lines 102–111): a decay channel is a `delay@` prefix, an input channel a `?`
prefix, any other an `!` prefix, each followed by the channel's solutions. -/
def generate_channel (symbols_dict : List (ℕ × String)) (c : Channel) : String :=
  if c.is_decay then "delay@r" ++ toString c.rate_id ++ "; " ++ solutions_str symbols_dict c
  else if c.is_input then "?chan" ++ toString c.rate_id ++ "; " ++ solutions_str symbols_dict c
  else "!chan" ++ toString c.rate_id ++ "; " ++ solutions_str symbols_dict c

/-- The per-species process body of `generate_automata_code`
(`spim_converter.py` lines 118–129): a species that is a key of the channel
dict gets its single channel, or a `do … or …` choice when it has several
channels, or — when its channel tuple is empty — no body at all; a species
that is not a key gets the inert process `()`. -/
def species_body (channel_dict : List (ℕ × List Channel))
    (symbols_dict : List (ℕ × String)) (species_id : ℕ) : String :=
  match channel_dict.lookup species_id with
  | some [c] => generate_channel symbols_dict c
  | some [] => ""
  | some cs => "do " ++ String.intercalate " or " (cs.map (generate_channel symbols_dict))
  | none => "()"

/-- The species iteration of `generate_automata_code` (`spim_converter.py`
lines 115–132), with the running `enumerate` index used for the
`"\nand "` separators (written while `symbol_index < species_count - 1`). -/
def automata_body (channel_dict : List (ℕ × List Channel))
    (symbols_dict : List (ℕ × String)) (species_count : ℕ) :
    List (ℕ × String) → ℕ → String
  | [], _ => ""
  | (sid, sname) :: rest, i =>
      sname ++ "() = " ++ species_body channel_dict symbols_dict sid ++
        (if i < species_count - 1 then "\nand " else "") ++
        automata_body channel_dict symbols_dict species_count rest (i + 1)

/-- `generate_automata_code` (`spim_converter.py` lines 85–133). -/
def generate_automata_code (channel_dict : List (ℕ × List Channel))
    (symbols_dict : List (ℕ × String)) (species_count : ℕ) : String :=
  "let " ++ automata_body channel_dict symbols_dict species_count symbols_dict 0

/-- The Python substring test `"<=>" in reaction_string`, by scanning every
suffix of the key for the three-character prefix. -/
def contains_reversible_arrow : List Char → Bool
  | [] => false
  | c :: rest =>
      if (c :: rest).take 3 = ['<', '=', '>'] then true
      else contains_reversible_arrow rest

/-- `_count_parameters` (`dgODE/plugins/ode_plugin.py` lines 36–37): every
rate-parameter key containing `"<=>"` counts as two reaction channels,
every other key as one. -/
def count_parameters (keys : List (List Char)) : ℕ :=
  (keys.map (fun k => if contains_reversible_arrow k then 2 else 1)).sum

/-- The fields of an ODE plugin instance that `sanity_check` reads:
`integration_range`, `ode_count` (declared species count),
`_reaction_count`, and the keys of the `parameters` mapping. -/
structure OdePluginInstance where
  integration_range : Option (List ℚ)
  ode_count : ℕ
  reaction_count : ℕ
  parameters : Option (List (List Char))

/-- `sanity_check` (`dgODE/plugins/ode_plugin.py` lines 16–33), with each
`raise ValueError` branch mapped to an error value.  The non-`None` initial
value count is `len(initial_values) - initial_values.count(None)`. -/
def sanity_check (p : OdePluginInstance) (initial_values : Option (List (Option ℚ))) :
    Except String Unit :=
  match p.integration_range with
  | none => .error "Integration range not set"
  | some [a, b] =>
      if a > b then .error "First value exceeds second in integration range"
      else
        match initial_values with
        | none => .error "No valid or no initial condition values where given"
        | some iv =>
            if iv.length - iv.count none < p.ode_count then
              .error "Not enough initial values given"
            else if iv.length - iv.count none > p.ode_count then
              .error "Too many initial values given"
            else
              match p.parameters with
              | none => .error "Parameters not set"
              | some ps =>
                  if p.reaction_count ≠ count_parameters ps then
                    .error "Unexpected number of parameter values"
                  else .ok ()
  | some _ => .error "Integration range; tuple is not of length 2"

/-- A vertex of the deviation graph as `ODESystem.__init__` sees it:
`vertex.id` and the display name `vertex.graph.name`. -/
structure GraphVertex where
  id : ℕ
  name : String

/-- A reaction edge of the deviation graph: `edge.id` plus the ids of its
source and target vertices. -/
structure GraphEdge where
  id : ℕ
  sources : List ℕ
  targets : List ℕ

/-- The deviation graph: ordered vertex and edge sequences, as iterated by
`self.graph.vertices` / `self.graph.edges`. -/
structure HyperGraph where
  vertices : List GraphVertex
  edges : List GraphEdge

/-- The `symbols` ordered dict of `ODESystem.__init__`
(`ode_simulator.py` line 26): vertex id ↦ vertex symbol, in vertex
declaration order. -/
def ode_system_symbols (g : HyperGraph) : List (ℕ × String) :=
  g.vertices.map (fun v => (v.id, v.name))

/-- The `enumerate(self.graph.edges)` loop building the `parameters` ordered
dict (`ode_simulator.py` lines 29–30): the running index starts at the given
value and the symbol for the i-th edge is `k(i+1)`. -/
def ode_system_parameters_from : List GraphEdge → ℕ → List (ℕ × String)
  | [], _ => []
  | e :: es, i => (e.id, "k" ++ toString (i + 1)) :: ode_system_parameters_from es (i + 1)

/-- The `parameters` ordered dict of `ODESystem.__init__`: edge id ↦
mass-action parameter symbol, in edge declaration order, indices from 1. -/
def ode_system_parameters (g : HyperGraph) : List (ℕ × String) :=
  ode_system_parameters_from g.edges 0

/-- `sym.replace('$', '')` on an internal symbol name
(`stochpy.py` line 37). -/
def strip_dollar (s : List Char) : List Char :=
  s.filter (fun c => c ≠ '$')

/-- The missing-parameter defaulting loop of
`StochPyStochastic.generate_psc_file` (`stochpy.py` lines 35–39): for every
symbol declared by the network, if its `$`-stripped name is not yet a key of
the rates dict, bind it to the numeric value 0.  A Python dict insertion of a
fresh key appends it in iteration order. -/
def add_missing_rates (network_params : List (List Char)) (rates : List (List Char × ℚ)) :
    List (List Char × ℚ) :=
  match network_params with
  | [] => rates
  | sym :: rest =>
      let new_sym := strip_dollar sym
      if new_sym ∈ rates.map Prod.fst then add_missing_rates rest rates
      else add_missing_rates rest (rates ++ [(new_sym, 0)])

/-- Python dict value lookup `rates[key]` on the association-list model:
the value of the first (and, for dict-built lists, only) pair with the given
key. -/
def alist_lookup (k : List Char) : List (List Char × ℚ) → Option ℚ
  | [] => none
  | p :: ps => if p.1 = k then some p.2 else alist_lookup k ps

/-- Modelled from the spec: `stochpy_converter.generate_rates` is not under
`src/` (only its caller `generate_psc_file` is).  The spec says the
rule-based generator emits "a parameter block binding every rate symbol to
its numeric value", i.e. one parameter line per entry of the rates dict. -/
def stochpy_generate_rates (rates : List (List Char × ℚ)) : List String :=
  rates.map (fun p => String.mk p.1 ++ " = " ++ rat_str p.2)

theorem mem_rates_fold (er : ℕ → ℚ) :
    ∀ (cs : List Channel) (seen : List ℕ) (r : ℕ),
      r ∈ (rates_fold er cs seen).map Prod.fst ↔
        r ∈ cs.map Channel.rate_id ∧ r ∉ seen := by
  intro cs
  induction cs with
  | nil => intro seen r; simp [rates_fold]
  | cons c cs ih =>
      intro seen r
      by_cases hm : c.rate_id ∈ seen
      · simp only [rates_fold, if_pos hm, ih, List.map_cons, List.mem_cons]
        constructor
        · rintro ⟨h1, h2⟩; exact ⟨Or.inr h1, h2⟩
        · rintro ⟨h1 | h1, h2⟩
          · subst h1; exact absurd hm h2
          · exact ⟨h1, h2⟩
      · simp only [rates_fold, if_neg hm, List.map_cons, List.mem_cons, ih]
        constructor
        · rintro (rfl | ⟨h1, h2⟩)
          · exact ⟨Or.inl rfl, hm⟩
          · refine ⟨Or.inr h1, fun hc => h2 (Or.inr hc)⟩
        · rintro ⟨rfl | h1, h2⟩
          · exact Or.inl rfl
          · by_cases hrc : r = c.rate_id
            · exact Or.inl hrc
            · exact Or.inr ⟨h1, by simp [hrc, h2]⟩

theorem nodup_rates_fold (er : ℕ → ℚ) :
    ∀ (cs : List Channel) (seen : List ℕ),
      ((rates_fold er cs seen).map Prod.fst).Nodup := by
  intro cs
  induction cs with
  | nil => intro seen; simp [rates_fold]
  | cons c cs ih =>
      intro seen
      by_cases hm : c.rate_id ∈ seen
      · simpa [rates_fold, if_pos hm] using ih seen
      · simp only [rates_fold, if_neg hm, List.map_cons, List.nodup_cons]
        refine ⟨fun hc => ?_, ih _⟩
        rcases (mem_rates_fold er cs _ _).mp hc with ⟨_, hns⟩
        exact hns (List.mem_cons_self _ _)

theorem read_output_ok (header : List String) :
    ∀ (rows : List (List ℚ)) (h : List String) (ind : List ℚ) (dep : List (List ℚ)),
      read_output header rows = .ok (h, ind, dep) →
        ind.length = dep.length ∧
          List.Forall₂ (fun (r d : List ℚ) => d.length + 1 = r.length) rows dep := by
  intro rows
  induction rows with
  | nil =>
      intro h ind dep hok
      simp only [read_output, Except.ok.injEq, Prod.mk.injEq] at hok
      obtain ⟨-, rfl, rfl⟩ := hok
      simp
  | cons row rest ih =>
      intro h ind dep hok
      match row with
      | [] => simp [read_output] at hok
      | t :: vals =>
          simp only [read_output] at hok
          cases hrec : read_output header rest with
          | error e => rw [hrec] at hok; simp at hok
          | ok trip =>
              obtain ⟨h2, ind2, dep2⟩ := trip
              rw [hrec] at hok
              simp only [Except.ok.injEq, Prod.mk.injEq] at hok
              obtain ⟨rfl, rfl, rfl⟩ := hok
              obtain ⟨hlen, hall⟩ := ih h2 ind2 dep2 hrec
              exact ⟨by simp [hlen], List.Forall₂.cons (by simp) hall⟩

theorem spim_parse_csv_ok :
    ∀ (rows : List (List ℚ)) (ind : List ℚ) (dep : List (List ℚ)),
      spim_parse_csv rows = .ok (ind, dep) →
        ind.length = dep.length ∧
          List.Forall₂ (fun (r d : List ℚ) => d.length + 1 = r.length) rows dep := by
  intro rows
  induction rows with
  | nil =>
      intro ind dep hok
      simp only [spim_parse_csv, Except.ok.injEq, Prod.mk.injEq] at hok
      obtain ⟨rfl, rfl⟩ := hok
      simp
  | cons row rest ih =>
      intro ind dep hok
      match row with
      | [] => simp [spim_parse_csv] at hok
      | t :: vals =>
          simp only [spim_parse_csv] at hok
          cases hrec : spim_parse_csv rest with
          | error e => rw [hrec] at hok; simp at hok
          | ok pr =>
              obtain ⟨ind2, dep2⟩ := pr
              rw [hrec] at hok
              simp only [Except.ok.injEq, Prod.mk.injEq] at hok
              obtain ⟨rfl, rfl⟩ := hok
              obtain ⟨hlen, hall⟩ := ih ind2 dep2 hrec
              exact ⟨by simp [hlen], List.Forall₂.cons (by simp) hall⟩

theorem filter_row_length_from (ign : List ℕ) :
    ∀ (r : List ℚ) (i : ℕ),
      (filter_row ign r i).length =
        r.length - (List.range' i r.length).countP (fun j => decide (j ∈ ign)) := by
  intro r
  induction r with
  | nil => intro i; simp [filter_row]
  | cons x xs ih =>
      intro i
      have hle : (List.range' (i + 1) xs.length).countP (fun j => decide (j ∈ ign)) ≤ xs.length := by
        simpa using List.countP_le_length (l := List.range' (i + 1) xs.length)
          (p := fun j => decide (j ∈ ign))
      by_cases hm : i ∈ ign
      · simp [filter_row, hm, ih, List.range'_succ, List.countP_cons]
      · simp [filter_row, hm, ih, List.range'_succ, List.countP_cons]
        omega

theorem countP_mem_range (ign : List ℕ) (n : ℕ) (hnd : ign.Nodup)
    (hb : ∀ j ∈ ign, j < n) :
    (List.range n).countP (fun j => decide (j ∈ ign)) = ign.length := by
  rw [List.countP_eq_length_filter]
  have hfn : ((List.range n).filter (fun j => decide (j ∈ ign))).Nodup :=
    (List.nodup_range n).filter _
  have hfin : ((List.range n).filter (fun j => decide (j ∈ ign))).toFinset = ign.toFinset := by
    ext x
    simp only [List.mem_toFinset, List.mem_filter, List.mem_range, decide_eq_true_eq]
    exact ⟨fun h => h.2, fun h => ⟨hb x h, h⟩⟩
  have h1 := List.toFinset_card_of_nodup hfn
  have h2 := List.toFinset_card_of_nodup hnd
  rw [← h1, hfin, h2]

theorem filter_row_length (ign : List ℕ) (r : List ℚ) (hnd : ign.Nodup)
    (hb : ∀ j ∈ ign, j < r.length) :
    (filter_row ign r 0).length = r.length - ign.length := by
  rw [filter_row_length_from, ← List.range_eq_range', countP_mem_range ign r.length hnd hb]

theorem alist_lookup_eq_none (l : List (List Char × ℚ)) (k : List Char)
    (h : k ∉ l.map Prod.fst) : alist_lookup k l = none := by
  induction l with
  | nil => rfl
  | cons p ps ih =>
      simp only [List.map_cons, List.mem_cons] at h
      push_neg at h
      simp only [alist_lookup]
      rw [if_neg (Ne.symm h.1)]
      exact ih h.2

theorem alist_lookup_append_left (l l2 : List (List Char × ℚ)) (k : List Char)
    (h : k ∈ l.map Prod.fst) :
    alist_lookup k (l ++ l2) = alist_lookup k l := by
  induction l with
  | nil => simp at h
  | cons p ps ih =>
      by_cases hpk : p.1 = k
      · simp [alist_lookup, hpk]
      · simp only [List.map_cons, List.mem_cons] at h
        rcases h with h | h
        · exact absurd h.symm hpk
        · simp [alist_lookup, hpk, ih h]

theorem alist_lookup_append_absent (l l2 : List (List Char × ℚ)) (k : List Char)
    (h : k ∉ l.map Prod.fst) :
    alist_lookup k (l ++ l2) = alist_lookup k l2 := by
  induction l with
  | nil => simp
  | cons p ps ih =>
      simp only [List.map_cons, List.mem_cons] at h
      push_neg at h
      simp only [List.cons_append, alist_lookup]
      rw [if_neg (Ne.symm h.1)]
      exact ih h.2

theorem add_missing_mem_keys :
    ∀ (np : List (List Char)) (rates : List (List Char × ℚ)) (k : List Char),
      k ∈ rates.map Prod.fst → k ∈ (add_missing_rates np rates).map Prod.fst := by
  intro np
  induction np with
  | nil => intro rates k h; simpa [add_missing_rates] using h
  | cons s rest ih =>
      intro rates k h
      by_cases hm : strip_dollar s ∈ rates.map Prod.fst
      · simpa [add_missing_rates, hm] using ih rates k h
      · have h2 : k ∈ (rates ++ [(strip_dollar s, 0)]).map Prod.fst := by
          simp only [List.map_append, List.mem_append]
          exact Or.inl h
        simpa [add_missing_rates, hm] using ih _ k h2

theorem add_missing_lookup_preserved :
    ∀ (np : List (List Char)) (rates : List (List Char × ℚ)) (k : List Char),
      k ∈ rates.map Prod.fst →
        alist_lookup k (add_missing_rates np rates) = alist_lookup k rates := by
  intro np
  induction np with
  | nil => intro rates k _; simp [add_missing_rates]
  | cons s rest ih =>
      intro rates k h
      by_cases hm : strip_dollar s ∈ rates.map Prod.fst
      · simpa [add_missing_rates, hm] using ih rates k h
      · have h2 : k ∈ (rates ++ [(strip_dollar s, 0)]).map Prod.fst := by
          simp only [List.map_append, List.mem_append]
          exact Or.inl h
        have := ih (rates ++ [(strip_dollar s, 0)]) k h2
        simpa [add_missing_rates, hm, alist_lookup_append_left rates _ k h] using this

theorem add_missing_target_mem :
    ∀ (np : List (List Char)) (rates : List (List Char × ℚ)) (sym : List Char),
      sym ∈ np → strip_dollar sym ∈ (add_missing_rates np rates).map Prod.fst := by
  intro np
  induction np with
  | nil => intro rates sym h; simp at h
  | cons s rest ih =>
      intro rates sym hmem
      rcases List.mem_cons.mp hmem with rfl | hmem2
      · by_cases hm : strip_dollar sym ∈ rates.map Prod.fst
        · simpa [add_missing_rates, hm] using add_missing_mem_keys rest rates _ hm
        · have h2 : strip_dollar sym ∈ (rates ++ [(strip_dollar sym, 0)]).map Prod.fst := by
            simp
          simpa [add_missing_rates, hm] using add_missing_mem_keys rest _ _ h2
      · by_cases hm : strip_dollar s ∈ rates.map Prod.fst
        · simpa [add_missing_rates, hm] using ih rates sym hmem2
        · simpa [add_missing_rates, hm] using ih _ sym hmem2

theorem add_missing_default_zero :
    ∀ (np : List (List Char)) (rates : List (List Char × ℚ)) (sym : List Char),
      sym ∈ np → strip_dollar sym ∉ rates.map Prod.fst →
        alist_lookup (strip_dollar sym) (add_missing_rates np rates) = some 0 := by
  intro np
  induction np with
  | nil => intro rates sym h; simp at h
  | cons s rest ih =>
      intro rates sym hmem habs
      rcases List.mem_cons.mp hmem with rfl | hmem2
      · have hk : strip_dollar sym ∈ (rates ++ [(strip_dollar sym, 0)]).map Prod.fst := by
          simp
        have hpres := add_missing_lookup_preserved rest _ _ hk
        have habsent := alist_lookup_append_absent rates [(strip_dollar sym, 0)] _ habs
        simp only [add_missing_rates, if_neg habs]
        rw [hpres, habsent]
        simp [alist_lookup]
      · by_cases hm : strip_dollar s ∈ rates.map Prod.fst
        · simpa [add_missing_rates, hm] using ih rates sym hmem2 habs
        · by_cases heq : strip_dollar sym = strip_dollar s
          · have hk : strip_dollar s ∈ (rates ++ [(strip_dollar s, 0)]).map Prod.fst := by
              simp
            have hpres := add_missing_lookup_preserved rest (rates ++ [(strip_dollar s, 0)]) _ hk
            have habsent := alist_lookup_append_absent rates [(strip_dollar s, 0)] _ hm
            simp only [add_missing_rates, if_neg hm]
            rw [heq, hpres, habsent]
            simp [alist_lookup]
          · have habs2 : strip_dollar sym ∉ (rates ++ [(strip_dollar s, 0)]).map Prod.fst := by
              simp only [List.map_append, List.mem_append, List.map_cons, List.map_nil,
                List.mem_singleton]
              push_neg
              exact ⟨habs, heq⟩
            simpa [add_missing_rates, hm] using ih _ sym hmem2 habs2

theorem add_missing_nodup :
    ∀ (np : List (List Char)) (rates : List (List Char × ℚ)),
      (rates.map Prod.fst).Nodup → ((add_missing_rates np rates).map Prod.fst).Nodup := by
  intro np
  induction np with
  | nil => intro rates h; simpa [add_missing_rates] using h
  | cons s rest ih =>
      intro rates h
      by_cases hm : strip_dollar s ∈ rates.map Prod.fst
      · simpa [add_missing_rates, hm] using ih rates h
      · have h2 : ((rates ++ [(strip_dollar s, 0)]).map Prod.fst).Nodup := by
          rw [List.map_append, List.nodup_append]
          refine ⟨h, List.nodup_singleton _, ?_⟩
          intro a ha hb
          simp only [List.map_cons, List.map_nil, List.mem_singleton] at hb
          subst hb
          exact hm ha
        simpa [add_missing_rates, hm] using ih _ h2

theorem ode_system_parameters_from_map_fst :
    ∀ (es : List GraphEdge) (i : ℕ),
      (ode_system_parameters_from es i).map Prod.fst = es.map GraphEdge.id := by
  intro es
  induction es with
  | nil => intro i; simp [ode_system_parameters_from]
  | cons e es ih => intro i; simp [ode_system_parameters_from, ih]

theorem forall₂_mem_right {α β : Type} {R : α → β → Prop} :
    ∀ {l1 : List α} {l2 : List β}, List.Forall₂ R l1 l2 →
      ∀ b ∈ l2, ∃ a ∈ l1, R a b := by
  intro l1 l2 h
  induction h with
  | nil => simp
  | cons hR hrest ih =>
      intro b hb
      rcases List.mem_cons.mp hb with rfl | hb2
      · exact ⟨_, List.mem_cons_self _ _, hR⟩
      · obtain ⟨a, ha, hab⟩ := ih b hb2
        exact ⟨a, List.mem_cons_of_mem _ ha, hab⟩

/-- Claim C1.  The claim states that a StochKit2 run whose external process
times out or exits non-zero returns a `SimulationOutput` carrying the
captured exception, with no exception reaching the caller.  That is the
clear intent of the `except` blocks in `StochKit2Stochastic.simulate`, but
the constructed call leaves `independent` at its default empty tuple (and
binds the symbol table to the `dependent` parameter positionally), so
`SimulationOutput.__init__` raises `IndexError` from
`independent[-1]` and the exception does propagate: the failure path never
returns an output, for every end time, symbol table, method and captured
error. -/
theorem c1_stochkit2_failure_path_raises (end_time : ℚ) (symbols_arg : List (List ℚ))
    (method_name err : String) :
    stochkit2_failure_output end_time symbols_arg method_name err =
      .error "IndexError: tuple index out of range" := rfl

/-- Claim C2.  Constructing a `SimulationOutput` with an empty `independent`
sequence always raises `IndexError` (the constructor computes
`simulation_duration` from `independent[-1]` and `independent[0]`), and
every successfully constructed `SimulationOutput` has a non-empty
`independent` sequence, so its `is_empty` property is false. -/
theorem c2_empty_independent_raises (sb : String) (rng : ℚ × ℚ)
    (dep : List (List ℚ)) (ign : List (String × ℕ)) (sm : Option String)
    (sy : Option (List String)) (er : List String) (lb : Option (List String)) :
    SimulationOutput.init? sb rng dep [] ign sm sy er lb =
        .error "IndexError: tuple index out of range" ∧
      ∀ (ind : List ℚ) (o : SimulationOutput),
        SimulationOutput.init? sb rng dep ind ign sm sy er lb = .ok o →
          o.independent ≠ [] ∧ o.is_empty = false := by
  refine ⟨rfl, ?_⟩
  intro ind o h
  match ind with
  | [] => simp [SimulationOutput.init?] at h
  | a :: l =>
      simp only [SimulationOutput.init?, Except.ok.injEq] at h
      subst h
      exact ⟨by simp, by simp [SimulationOutput.is_empty]⟩

/-- Witness for C2: a concrete two-sample construction succeeds and the
resulting output is not empty. -/
theorem c2_witness :
    ([(0 : ℚ), 1] ≠ ([] : List ℚ)) ∧
      (SimulationOutput.is_empty
        ⟨"s", none, (0, 0), [], [0, 1], none, [], |(1 : ℚ) - 0|, [], none⟩) = false :=
  (c2_empty_independent_raises "s" (0, 0) [] [] none none [] none).2 [0, 1]
    ⟨"s", none, (0, 0), [], [0, 1], none, [], |(1 : ℚ) - 0|, [], none⟩ rfl

/-- Claim C3.  For the result tables parsed by the backend plugins
(`read_output` in the StochKit2 plugin, the csv loop in the SPiM plugin),
the parsed `independent` and `dependent` sequences have equal length; when
every table row has the same field count `w + 1` (one time column plus `w`
species columns, the format of a result table), every dependent row has
width `w`; and since both plugins construct the output with `ignore=()`, the
ignored-index set of the constructed output is empty, hence trivially a
subset of `[0, w)`. -/
theorem c3_parsed_table_invariants :
    (∀ (header : List String) (rows : List (List ℚ)) (h : List String)
        (ind : List ℚ) (dep : List (List ℚ)),
      read_output header rows = .ok (h, ind, dep) →
        ind.length = dep.length ∧
          ∀ w, (∀ r ∈ rows, r.length = w + 1) → ∀ d ∈ dep, d.length = w) ∧
    (∀ (rows : List (List ℚ)) (ind : List ℚ) (dep : List (List ℚ)),
      spim_parse_csv rows = .ok (ind, dep) →
        ind.length = dep.length ∧
          ∀ w, (∀ r ∈ rows, r.length = w + 1) → ∀ d ∈ dep, d.length = w) ∧
    (∀ (sb : String) (rng : ℚ × ℚ) (dep : List (List ℚ)) (ind : List ℚ)
        (sm : Option String) (sy : Option (List String)) (er : List String)
        (lb : Option (List String)) (o : SimulationOutput),
      SimulationOutput.init? sb rng dep ind [] sm sy er lb = .ok o →
        o.ignored = []) := by
  refine ⟨?_, ?_, ?_⟩
  · intro header rows h ind dep hok
    obtain ⟨hlen, hall⟩ := read_output_ok header rows h ind dep hok
    refine ⟨hlen, fun w hw d hd => ?_⟩
    obtain ⟨r, hrmem, hrd⟩ := forall₂_mem_right hall d hd
    have := hw r hrmem
    omega
  · intro rows ind dep hok
    obtain ⟨hlen, hall⟩ := spim_parse_csv_ok rows ind dep hok
    refine ⟨hlen, fun w hw d hd => ?_⟩
    obtain ⟨r, hrmem, hrd⟩ := forall₂_mem_right hall d hd
    have := hw r hrmem
    omega
  · intro sb rng dep ind sm sy er lb o hok
    match ind with
    | [] => simp [SimulationOutput.init?] at hok
    | a :: l =>
        simp only [SimulationOutput.init?, Except.ok.injEq] at hok
        subst hok
        rfl

/-- Witness for C3: a concrete two-line table parses into sequences of equal
length with uniform row width. -/
theorem c3_witness :
    read_output ["t", "y"] [[0, 1], [2, 3]] = .ok (["t", "y"], [0, 2], [[1], [3]]) ∧
      ([(0 : ℚ), 2].length = [[(1 : ℚ)], [3]].length ∧
        ∀ w, (∀ r ∈ [[(0 : ℚ), 1], [2, 3]], r.length = w + 1) →
          ∀ d ∈ [[(1 : ℚ)], [3]], d.length = w) :=
  ⟨rfl, c3_parsed_table_invariants.1 ["t", "y"] [[0, 1], [2, 3]] ["t", "y"]
    [0, 2] [[1], [3]] rfl⟩

/-- Claim C4.  `filtered_output` returns a new `SimulationOutput` whose
dependent rows have every ignored-column index removed, whose independent
sequence is the original's, and whose own ignored set is empty; the original
record is a pure value and is not mutated (the derived record is a fresh
one).  For every row, the filtered length is the original length minus the
number of ignored indices — provided the C3 invariants hold for the source
record (distinct ignored indices, all within each row's width), and the
source was successfully constructed (non-empty independent sequence, which
`__init__` requires again for the derived record). -/
theorem c4_filtered_output (o : SimulationOutput) (hne : o.independent ≠ [])
    (hnd : o.ignored.Nodup)
    (hb : ∀ r ∈ o.dependent, ∀ j ∈ o.ignored, j < r.length) :
    o.filtered_output =
        .ok ⟨o.solver_used, o.solver_method_used, o.requested_simulation_range,
          o.dependent.map (fun r => filter_row o.ignored r 0), o.independent,
          o.labels, o.errors,
          |o.independent.getLast hne - o.independent.head hne|, [], o.symbols⟩ ∧
      ∀ r ∈ o.dependent,
        (filter_row o.ignored r 0).length = r.length - o.ignored.length := by
  obtain ⟨su, sm, rng, dep, ind, lb, er, dur, ign, sy⟩ := o
  match ind, hne with
  | a :: l, hne =>
      refine ⟨rfl, ?_⟩
      intro r hr
      exact filter_row_length ign r hnd (hb r hr)

/-- Witness for C4: filtering one ignored column out of a width-2 row leaves
width 1. -/
theorem c4_witness :
    (filter_row [0] [(1 : ℚ), 2] 0).length = [(1 : ℚ), 2].length - ([0] : List ℕ).length := by
  have h := c4_filtered_output
    ⟨"s", none, (0, 0), [[1, 2]], [0, 1], none, [], 1, [0], none⟩
    (by decide) (by decide) (by decide)
  exact h.2 [1, 2] (by simp)

/-- Claim C5.  `__getitem__` with a single valid step index `i` returns the
pair `(independent[i], dependent[i])`; with a valid 2-tuple `(i, j)` it
returns `(independent[i], dependent[i][j])`; with an index sequence of any
other length it raises a usage error (`SyntaxError`, "Too many"/"Too few"
indices). -/
theorem c5_getitem_contract (o : SimulationOutput) :
    (∀ i, (hi : i < o.independent.length) → (hd : i < o.dependent.length) →
      o.getitem (.single i) = .ok (.pair o.independent[i] o.dependent[i])) ∧
    (∀ i j, (hi : i < o.independent.length) → (hd : i < o.dependent.length) →
      (hj : j < o.dependent[i].length) →
      o.getitem (.seq [i, j]) = .ok (.cell o.independent[i] o.dependent[i][j])) ∧
    (∀ idxs : List ℕ, idxs.length ≠ 2 →
      o.getitem (.seq idxs) =
        .error (if idxs.length > 2 then "SyntaxError: Too many indices given"
                else "SyntaxError: Too few indices given")) := by
  refine ⟨?_, ?_, ?_⟩
  · intro i hi hd
    simp [SimulationOutput.getitem, List.getElem?_eq_getElem, hi, hd]
  · intro i j hi hd hj
    simp [SimulationOutput.getitem, List.getElem?_eq_getElem, hi, hd, hj]
  · intro idxs hne
    match idxs with
    | [] => simp [SimulationOutput.getitem]
    | [a] => simp [SimulationOutput.getitem]
    | [a, b] => simp at hne
    | a :: b :: c :: rest =>
        have hgt : (a :: b :: c :: rest).length > 2 := by simp
        simp [SimulationOutput.getitem, hgt]

/-- Witness for C5: single-index and pair-index access on a one-step
output, and the usage error on a length-1 index sequence. -/
theorem c5_witness :
    SimulationOutput.getitem
        ⟨"s", none, (0, 0), [[1, 2]], [7], none, [], 0, [], none⟩ (.single 0) =
      .ok (.pair 7 [1, 2]) ∧
    SimulationOutput.getitem
        ⟨"s", none, (0, 0), [[1, 2]], [7], none, [], 0, [], none⟩ (.seq [0, 1]) =
      .ok (.cell 7 2) ∧
    SimulationOutput.getitem
        ⟨"s", none, (0, 0), [[1, 2]], [7], none, [], 0, [], none⟩ (.seq [0]) =
      .error "SyntaxError: Too few indices given" := by
  have h := c5_getitem_contract ⟨"s", none, (0, 0), [[1, 2]], [7], none, [], 0, [], none⟩
  refine ⟨?_, ?_, ?_⟩
  · simpa using h.1 0 (by decide) (by decide)
  · simpa using h.2.1 0 1 (by decide) (by decide) (by decide)
  · simpa using h.2.2 [0] (by decide)

/-- Claim C6.  In `generate_rates`, every rate id used by some channel of
the channel dict appears exactly once among the rendered declarations (count
one, even when several channels share the same rate id), and every rendered
declaration belongs to a used rate id; the generated text is exactly the
concatenation of those declaration lines. -/
theorem c6_rates_declared_once (er : ℕ → ℚ) (d : List (ℕ × List Channel)) :
    generate_rates er d =
        String.join ((rates_fold er (all_channels d) []).map Prod.snd) ∧
      (∀ r ∈ (all_channels d).map Channel.rate_id,
        ((rates_fold er (all_channels d) []).map Prod.fst).count r = 1) ∧
      (∀ r ∈ (rates_fold er (all_channels d) []).map Prod.fst,
        r ∈ (all_channels d).map Channel.rate_id) := by
  refine ⟨rfl, ?_, ?_⟩
  · intro r hr
    have hmem : r ∈ (rates_fold er (all_channels d) []).map Prod.fst :=
      (mem_rates_fold er (all_channels d) [] r).mpr ⟨hr, by simp⟩
    exact List.count_eq_one_of_mem (nodup_rates_fold er (all_channels d) []) hmem
  · intro r hr
    exact ((mem_rates_fold er (all_channels d) [] r).mp hr).1

/-- Witness for C6: two channels sharing rate id 5 yield exactly one
declaration for id 5. -/
theorem c6_witness :
    ((rates_fold (fun _ => (0 : ℚ))
        (all_channels [(0, [⟨5, true, false, 0, []⟩, ⟨5, false, true, 1, []⟩])]) []).map
      Prod.fst).count 5 = 1 :=
  (c6_rates_declared_once (fun _ => (0 : ℚ))
    [(0, [⟨5, true, false, 0, []⟩, ⟨5, false, true, 1, []⟩])]).2.1 5 (by decide)

/-- Claim C7 counterexample.  The claim says a species with no channels is
rendered as the inert process `()`.  A species that is a key of the channel
dict but whose channel tuple is empty falls through both branches of
`generate_automata_code` (`if len == 1 … elif len > 1 …`) and gets an empty
body instead: with channel dict `{0: ()}` and symbol table `{0: "A"}` the
generator emits `let A() = ` and not `let A() = ()`. -/
theorem c7_counterexample :
    generate_automata_code [(0, [])] [(0, "A")] 1 = "let A() = " ∧
      species_body [(0, [])] [(0, "A")] 0 = "" ∧
      generate_automata_code [(0, [])] [(0, "A")] 1 ≠ "let A() = ()" := by
  refine ⟨rfl, rfl, by decide⟩

/-- Claim C7, amended.  A species with no entry in the channel dict is
rendered as the inert process `()` (while a species mapped to an empty
channel tuple gets an empty body); a species with exactly one channel is
rendered as that channel's prefix followed by its solutions — a parallel
composition when it produces more than one species, a single call for one,
the inert process for none; and a species with two or more channels becomes
a choice joining each channel's guarded continuation with `or`. -/
theorem c7_automata_rendering (cd : List (ℕ × List Channel))
    (sd : List (ℕ × String)) (sid : ℕ) :
    (cd.lookup sid = none → species_body cd sd sid = "()") ∧
    (cd.lookup sid = some [] → species_body cd sd sid = "") ∧
    (∀ c, cd.lookup sid = some [c] →
      species_body cd sd sid = generate_channel sd c) ∧
    (∀ c1 c2 cs, cd.lookup sid = some (c1 :: c2 :: cs) →
      species_body cd sd sid =
        "do " ++ String.intercalate " or " ((c1 :: c2 :: cs).map (generate_channel sd))) ∧
    (∀ c : Channel, c.is_decay = true →
      generate_channel sd c = "delay@r" ++ toString c.rate_id ++ "; " ++ solutions_str sd c) ∧
    (∀ c : Channel, c.is_decay = false → c.is_input = true →
      generate_channel sd c = "?chan" ++ toString c.rate_id ++ "; " ++ solutions_str sd c) ∧
    (∀ c : Channel, c.is_decay = false → c.is_input = false →
      generate_channel sd c = "!chan" ++ toString c.rate_id ++ "; " ++ solutions_str sd c) ∧
    (∀ c : Channel, c.solutions = [] → solutions_str sd c = "()") ∧
    (∀ (c : Channel) s, c.solutions = [s] →
      solutions_str sd c = dict_get sd s ++ "()") ∧
    (∀ (c : Channel) s1 s2 ss, c.solutions = s1 :: s2 :: ss →
      solutions_str sd c =
        "( " ++ String.intercalate " | "
          ((s1 :: s2 :: ss).map (fun s => dict_get sd s ++ "()")) ++ " )") := by
  refine ⟨?_, ?_, ?_, ?_, ?_, ?_, ?_, ?_, ?_, ?_⟩
  · intro h; simp [species_body, h]
  · intro h; simp [species_body, h]
  · intro c h; simp [species_body, h]
  · intro c1 c2 cs h; simp [species_body, h]
  · intro c h; simp [generate_channel, h]
  · intro c h1 h2; simp [generate_channel, h1, h2]
  · intro c h1 h2; simp [generate_channel, h1, h2]
  · intro c h; simp [solutions_str, h]
  · intro c s h; simp [solutions_str, h]
  · intro c s1 s2 ss h; simp [solutions_str, h]

/-- Witness for C7: concrete per-case renderings for a one-channel species
and for an absent species. -/
theorem c7_witness :
    species_body ([] : List (ℕ × List Channel)) [] 7 = "()" ∧
      species_body [(3, [⟨5, true, false, 0, []⟩])] [] 3 =
        generate_channel [] ⟨5, true, false, 0, []⟩ :=
  ⟨(c7_automata_rendering [] [] 7).1 rfl,
    (c7_automata_rendering [(3, [⟨5, true, false, 0, []⟩])] [] 3).2.2.1
      ⟨5, true, false, 0, []⟩ rfl⟩

/-- Claim C8.  `sanity_check` on an ODE plugin instance with a length-2
integration range, given initial values and given rate parameters succeeds
exactly when the range is ordered (`start ≤ end`), the count of
non-`None` initial values equals the declared species count, and the
rate-parameter count — a reversible `<=>` reaction counting as two
channels — equals the reaction count; any violation yields an error. -/
theorem c8_sanity_check (a b : ℚ) (n rc : ℕ) (iv : List (Option ℚ))
    (ps : List (List Char)) :
    sanity_check ⟨some [a, b], n, rc, some ps⟩ (some iv) = .ok () ↔
      (a ≤ b ∧ iv.length - iv.count none = n ∧ rc = count_parameters ps) := by
  constructor
  · intro h
    unfold sanity_check at h
    dsimp only at h
    split_ifs at h with h1 h2 h3 h4
    simp_all
    omega
  · rintro ⟨hab, hcount, hrc⟩
    unfold sanity_check
    dsimp only
    rw [if_neg (not_lt.mpr hab), if_neg (by omega), if_neg (by omega),
      if_neg (fun hne => hne hrc)]

/-- Claim C9.  The model generators are pure functions of their (ordered)
inputs: two invocations on the same network, rates and initial conditions
yield character-for-character identical text; and the declaration order does
not depend on unordered iteration — the `ODESystem.__init__` symbol table
lists the vertex ids in declaration order and the parameter table lists the
edge ids in declaration order (with the i-th parameter named `k(i+1)`). -/
theorem c9_deterministic_generation (er : ℕ → ℚ) (d : List (ℕ × List Channel))
    (sd : List (ℕ × String)) (sc : ℕ) (g : HyperGraph) :
    generate_rates er d = generate_rates er d ∧
      generate_automata_code d sd sc = generate_automata_code d sd sc ∧
      ode_system_symbols g = ode_system_symbols g ∧
      ode_system_parameters g = ode_system_parameters g ∧
      (ode_system_symbols g).map Prod.fst = g.vertices.map GraphVertex.id ∧
      (ode_system_parameters g).map Prod.fst = g.edges.map GraphEdge.id := by
  refine ⟨rfl, rfl, rfl, rfl, ?_, ode_system_parameters_from_map_fst g.edges 0⟩
  simp [ode_system_symbols]

/-- Claim C10.  After the defaulting loop of `generate_psc_file`, the rates
dict binds every network-declared rate symbol (with `$` stripped): its keys
are pairwise distinct — so the parameter block has exactly one line per
rate symbol, one line per dict entry — a symbol the user did not supply is
bound to the numeric value 0 rather than erroring, and user-supplied values
are preserved. -/
theorem c10_psc_rate_lines (user_rates : List (List Char × ℚ))
    (network_params : List (List Char))
    (hnd : (user_rates.map Prod.fst).Nodup) :
    ((add_missing_rates network_params user_rates).map Prod.fst).Nodup ∧
      (stochpy_generate_rates (add_missing_rates network_params user_rates)).length =
        (add_missing_rates network_params user_rates).length ∧
      (∀ sym ∈ network_params,
        strip_dollar sym ∈ (add_missing_rates network_params user_rates).map Prod.fst) ∧
      (∀ sym ∈ network_params, strip_dollar sym ∉ user_rates.map Prod.fst →
        alist_lookup (strip_dollar sym) (add_missing_rates network_params user_rates) =
          some 0) ∧
      (∀ k ∈ user_rates.map Prod.fst,
        alist_lookup k (add_missing_rates network_params user_rates) =
          alist_lookup k user_rates) := by
  refine ⟨add_missing_nodup _ _ hnd, by simp [stochpy_generate_rates], ?_, ?_, ?_⟩
  · intro sym h
    exact add_missing_target_mem _ _ _ h
  · intro sym h habs
    exact add_missing_default_zero _ _ _ h habs
  · intro k h
    exact add_missing_lookup_preserved _ _ _ h

/-- Witness for C10: a network symbol `b` missing from the user rates gets
defaulted to 0. -/
theorem c10_witness :
    alist_lookup (strip_dollar [('b' : Char)])
        (add_missing_rates [[('b' : Char)]] [([('a' : Char)], (3 : ℚ))]) = some 0 :=
  (c10_psc_rate_lines [([('a' : Char)], (3 : ℚ))] [[('b' : Char)]] (by decide)).2.2.2.1
    [('b' : Char)] (by decide) (by decide)
